import Mathlib

/-!
Shallow embedding of the reflecto mirror-ranking core (src/lib.rs).

Modelling conventions:
* `f64` values reachable from JSON (`score`, `delay`) are `Option ℚ` (JSON cannot
  encode NaN or infinities), while the transient download rate, which the prober
  can set to NaN, is an `Option FVal` where `FVal` is either NaN or a rational.
* `chrono::DateTime<Utc>` timestamps are integers (seconds since the Unix epoch);
  `DateTime::<Utc>::default()` is the epoch, i.e. `0`.  `chrono::Duration` values
  are integer numbers of seconds; `num_hours`/`num_minutes` truncate toward zero,
  which is Lean's `Int.tdiv`.
* Rust's stable `sort_by` / `sort_by_key` is `List.mergeSort` with the boolean
  relation `le a b := (comparator a b ≠ .gt)`.
* `usize` arithmetic wraps modulo `2 ^ 64` (release semantics); `wsub` is the
  wrapping decrement used by `update_download_rate`'s counter.
* The concurrent join loop of `update_download_rate` is parameterised by the
  completion sequence: a list of (original mirror, probe outcome) pairs in
  completion order, an arbitrary interleaving of the spawned tasks.
-/

/-- Transport protocol of a mirror (enum `Protocol` in src/lib.rs). -/
inductive Protocol
| ftp
| https
| http
| rsync
deriving DecidableEq

/-- A reachable `f64` value for a measured download rate: NaN (zero-byte
transfer sentinel) or an ordinary (rational) number. -/
inductive FVal
| nan
| val (q : ℚ)
deriving DecidableEq

/-- Partial comparison on `FVal`, mirroring `f64::partial_cmp`: `none` as soon
as one side is NaN. -/
def FVal.pcmp : FVal → FVal → Option Ordering
| FVal.val a, FVal.val b => some (compare a b)
| _, _ => none

/-- Whether a value is the NaN sentinel. -/
def FVal.isNan : FVal → Bool
| FVal.nan => true
| _ => false

/-- Model of `Bandwidth::from_duration`: NaN when zero bytes were transferred,
otherwise `bytes / (1000 * elapsed_milliseconds)` (src/lib.rs lines 47-55). -/
def Bandwidth.from_duration (ms : Int) (bytes_quantity : Nat) : FVal :=
  if bytes_quantity = 0 then FVal.nan
  else FVal.val ((bytes_quantity : ℚ) / (1000 * (ms : ℚ)))

/-- One mirror endpoint (struct `Mirror` in src/lib.rs). -/
structure Mirror where
  url : String
  protocol : Protocol
  score : Option ℚ
  delay : Option ℚ
  country : Option String
  country_code : Option String
  last_sync : Option Int
  isos : Option Bool
  ipv4 : Option Bool
  ipv6 : Option Bool
  details : String
  download_rate : Option FVal
deriving DecidableEq

/-- The mirror directory (struct `MirrorList` in src/lib.rs). -/
structure MirrorList where
  mirrors : List Mirror
  source : Option String
deriving DecidableEq

/-- Sort keys (enum `SortKey` in src/lib.rs). -/
inductive SortKey
| Age
| Rate
| Country
| Score
| Delay
deriving DecidableEq

/-- Model of `m.age()`: `now - last_sync` when a last synchronisation exists
(src/lib.rs lines 363-366); the ambient clock is passed explicitly. -/
def Mirror.age (m : Mirror) (now : Int) : Option Int :=
  m.last_sync.map (fun t => now - t)

/-- Rust `f64::round`: round half away from zero. -/
def roundHalfAway (q : ℚ) : Int :=
  if 0 ≤ q then ⌊q + 1 / 2⌋ else ⌈q - 1 / 2⌉

/-- Largest `i32` value, the saturation bound of Rust's `as i32` cast. -/
def i32max : Int := 2147483647

/-- Smallest `i32` value. -/
def i32min : Int := -2147483648

/-- Rust `as i32` on a finite float: saturating conversion. -/
def satI32 (n : Int) : Int := max i32min (min i32max n)

/-- Sort key used for `SortKey::Age`: `last_sync.unwrap_or_default()`, the
default timestamp being the Unix epoch. -/
def Mirror.ageKey (m : Mirror) : Int := m.last_sync.getD 0

/-- Sort key used for `SortKey::Country`: `country.clone().unwrap_or_default()`. -/
def Mirror.countryKey (m : Mirror) : String := m.country.getD ""

/-- Sort key used for `SortKey::Score`: `score.unwrap_or(f64::INFINITY).round() as i32`.
A missing score becomes `+∞`, which rounds to `+∞` and casts to `i32::MAX`;
a present (finite) score is rounded half away from zero and saturated. -/
def Mirror.scoreKey (m : Mirror) : Int :=
  match m.score with
  | none => i32max
  | some q => satI32 (roundHalfAway q)

/-- Sort key used for `SortKey::Delay`, same policy as `scoreKey`. -/
def Mirror.delayKey (m : Mirror) : Int :=
  match m.delay with
  | none => i32max
  | some q => satI32 (roundHalfAway q)

/-- The effective rate used by the `SortKey::Rate` comparator:
`download_rate.clone().unwrap_or_default()` with `Bandwidth::default() = 0.0`. -/
def Mirror.rateKey (m : Mirror) : FVal := m.download_rate.getD (FVal.val 0)

/-- The `SortKey::Rate` comparator of src/lib.rs lines 98-105: arguments are
swapped to sort descending, and a failed (NaN) comparison collapses to
`Ordering::Equal` via `unwrap_or`. -/
def cmpRate (m n : Mirror) : Ordering :=
  ((n.rateKey).pcmp (m.rateKey)).getD Ordering.eq

/-- Boolean `le` relation fed to the stable sort for each key. -/
def sortLe : SortKey → Mirror → Mirror → Bool
| SortKey.Age => fun a b => decide (a.ageKey ≤ b.ageKey)
| SortKey.Rate => fun a b => decide (cmpRate a b ≠ Ordering.gt)
| SortKey.Country => fun a b => decide (a.countryKey ≤ b.countryKey)
| SortKey.Score => fun a b => decide (a.scoreKey ≤ b.scoreKey)
| SortKey.Delay => fun a b => decide (a.delayKey ≤ b.delayKey)

/-- Model of `MirrorList::sort` (src/lib.rs lines 92-116): a stable sort of the
mirror sequence by the chosen key's comparator. -/
def MirrorList.sort (ml : MirrorList) (key : SortKey) : MirrorList :=
  { ml with mirrors := ml.mirrors.mergeSort (sortLe key) }

/-- Model of `MirrorList::filter` (src/lib.rs lines 237-269).  The ambient
clock `now` is explicit because the age criterion calls `Utc::now()`.  The age
predicate is the literal source formula
`d.num_hours() as f64 + d.num_minutes() as f64 / 60.0 < age`,
where both `num_hours` and `num_minutes` are the TOTAL whole hours/minutes of
the duration, truncated toward zero. -/
def MirrorList.filter (ml : MirrorList) (now : Int) (age : Option ℚ)
    (isos ipv4 ipv6 : Bool) (protocol : List Protocol) : MirrorList :=
  let ml1 :=
    match age with
    | some a =>
        ml.mirrors.filter (fun m =>
          match m.age now with
          | some d => decide (((Int.tdiv d 3600 : Int) : ℚ) + ((Int.tdiv d 60 : Int) : ℚ) / 60 < a)
          | none => false)
    | none => ml.mirrors
  let ml2 := if isos then ml1.filter (fun m => m.isos.getD false) else ml1
  let ml3 := if ipv4 then ml2.filter (fun m => m.ipv4.getD false) else ml2
  let ml4 := if ipv6 then ml3.filter (fun m => m.ipv6.getD false) else ml3
  let ml5 := if protocol.isEmpty then ml4
    else ml4.filter (fun m => decide (m.protocol ∈ protocol))
  { ml with mirrors := ml5 }

/-- Insert-or-increment for the country occurrence map; models
`*countries.entry(key).or_insert(0) += 1` on an association list. -/
def bumpCountry : List ((String × String) × Nat) → (String × String) →
    List ((String × String) × Nat)
| [], k => [(k, 1)]
| (k', n) :: rest, k =>
    if k' = k then (k', n + 1) :: rest else (k', n) :: bumpCountry rest k

/-- Model of `MirrorList::get_countries` (src/lib.rs lines 154-167): count the
(country, country code) pairs of mirrors that have both fields. -/
def MirrorList.get_countries (ml : MirrorList) : List ((String × String) × Nat) :=
  ml.mirrors.foldl (fun acc m =>
    match m.country, m.country_code with
    | some c, some cc => bumpCountry acc (c, cc)
    | _, _ => acc) []

/-- Lexicographic order on ((country, code), count) entries, the derived `Ord`
used by `countries.sort()`. -/
def countryEntryLe (a b : (String × String) × Nat) : Bool :=
  if a.1.1 ≠ b.1.1 then decide (a.1.1 < b.1.1)
  else if a.1.2 ≠ b.1.2 then decide (a.1.2 < b.1.2)
  else decide (a.2 ≤ b.2)

/-- A run of `n` spaces. -/
def spaces (n : Nat) : String := String.mk (List.replicate n ' ')

/-- `{: >4}`-style right alignment in a field of width `w`. -/
def padLeft (s : String) (w : Nat) : String := spaces (w - s.length) ++ s

/-- Model of `get_country_line` (src/lib.rs lines 272-277). -/
def get_country_line (country code : String) (count : Nat) (country_len : Nat) : String :=
  country ++ spaces (country_len - country.length) ++ " " ++ padLeft code 4
    ++ " " ++ padLeft (toString count) 4

/-- Model of `MirrorList::print_countries` (src/lib.rs lines 170-189).
The `.max().expect("at least one country")` panic is modelled by returning
`none`; a normal return is `some` of the rendered report. -/
def MirrorList.print_countries (ml : MirrorList) : Option String :=
  let countries := (ml.get_countries).mergeSort countryEntryLe
  match (countries.map (fun c => c.1.1.length)).max? with
  | none => none
  | some longuest0 =>
      let longuest := max longuest0 7
      let header := "Country" ++ spaces (longuest - 7) ++ " Code Count"
      let sep := String.mk (List.replicate longuest '-') ++ " ---- ----"
      let body := countries.filterMap (fun c =>
        if c.1.1 = "" then none
        else some (get_country_line c.1.1 c.1.2 c.2 longuest))
      some (String.intercalate "\x0a" (header :: sep :: body))

/-- Outcome of one spawned probe task: failure (timeout / network error /
join error) or success carrying the measured rate the prober stored. -/
inductive Outcome
| fail
| success (rate : FVal)
deriving DecidableEq

/-- Wrapping `usize` decrement (`left -= 1` in release mode). -/
def wsub (n : Nat) : Nat :=
  if n = 0 then 18446744073709551615 else n - 1

/-- The join loop of `update_download_rate` (src/lib.rs lines 200-214): consume
completion events in order; a success appends the updated mirror (the original
with its `download_rate` set) and decrements the counter; after each event,
stop as soon as the counter is zero.  Returns the mirrors pushed onto
`self.mirrors`, in completion order. -/
def joinLoop : Nat → List (Mirror × Outcome) → List Mirror
| _, [] => []
| left, (m, o) :: rest =>
    match o with
    | Outcome.success r =>
        let m' := { m with download_rate := some r }
        let left' := wsub left
        if left' = 0 then [m'] else m' :: joinLoop left' rest
    | Outcome.fail => if left = 0 then [] else joinLoop left rest

/-- Model of `MirrorList::update_download_rate` (src/lib.rs lines 192-229).
`events` is the sequence of task completions in completion order (one per
spawned task; a permutation of the directory decided by the scheduler and the
network).  The counter starts at `len.min(limit)`; after the join loop, every
original mirror whose url is not among the successfully updated ones is
re-appended in original order. -/
def MirrorList.update_download_rate (ml : MirrorList)
    (events : List (Mirror × Outcome)) (limit : Nat) : MirrorList :=
  let left := min ml.mirrors.length limit
  let updated := joinLoop left events
  let ok_urls := updated.map Mirror.url
  { ml with mirrors := updated ++ ml.mirrors.filter (fun m => decide (m.url ∉ ok_urls)) }

/-- Modelled from the spec: the age-in-hours formula as the specification words
it for claim C4 ("integer-hours component plus fractional-minutes component
divided by 60"), i.e. the minutes WITHIN the current hour, which for positive
durations equals the total hours.  This is the refinement reading the source
does not implement. -/
def specAgeInHours (d : Int) : ℚ :=
  ((Int.tdiv d 3600 : Int) : ℚ) + (((Int.tdiv d 60 : Int) - 60 * (Int.tdiv d 3600 : Int) : Int) : ℚ) / 60

/-! Generic facts about the stable sort used by the model. -/

/-- Closed form of `mergeSort` on a two-element list. -/
theorem mergeSort_two {α : Type _} (le : α → α → Bool) (a b : α) :
    [a, b].mergeSort le = if le a b then [a, b] else [b, a] := by
  simp [List.mergeSort, List.splitInTwo, List.merge]

/-- Unfolding of `mergeSort` on a three-element list. -/
theorem mergeSort_three {α : Type _} (le : α → α → Bool) (a b c : α) :
    [a, b, c].mergeSort le = ([a, b].mergeSort le).merge [c] le := by
  simp [List.mergeSort, List.splitInTwo]

/-- `merge` only consults the relation on pairs drawn from its two inputs. -/
theorem merge_congr {α : Type _} {le le' : α → α → Bool} :
    ∀ (xs ys : List α), (∀ a b, a ∈ xs → b ∈ ys → le a b = le' a b) →
      List.merge xs ys le = List.merge xs ys le'
  | [], ys, _ => by simp
  | x :: xs, [], _ => by simp
  | x :: xs, y :: ys, h => by
    rw [List.cons_merge_cons, List.cons_merge_cons]
    have hxy : le x y = le' x y := h x y (List.mem_cons_self x xs) (List.mem_cons_self y ys)
    rw [hxy]
    by_cases hc : le' x y
    · rw [if_pos hc, if_pos hc]
      rw [merge_congr xs (y :: ys) (fun a b ha hb => h a b (List.mem_cons_of_mem x ha) hb)]
    · rw [if_neg hc, if_neg hc]
      rw [merge_congr (x :: xs) ys (fun a b ha hb => h a b ha (List.mem_cons_of_mem y hb))]

/-- `mergeSort` only consults the relation on pairs drawn from the list. -/
theorem mergeSort_congr {α : Type _} {le le' : α → α → Bool} :
    ∀ (l : List α), (∀ a b, a ∈ l → b ∈ l → le a b = le' a b) →
      l.mergeSort le = l.mergeSort le'
  | [], _ => by simp
  | [a], _ => by simp
  | a :: b :: xs, h => by
    have hl1 : (List.splitInTwo ⟨a :: b :: xs, rfl⟩).1.1.length < xs.length + 1 + 1 := by
      simp [List.splitInTwo_fst]; omega
    have hl2 : (List.splitInTwo ⟨a :: b :: xs, rfl⟩).2.1.length < xs.length + 1 + 1 := by
      simp [List.splitInTwo_snd]; omega
    have hsub1 : ∀ x ∈ (List.splitInTwo ⟨a :: b :: xs, rfl⟩).1.1, x ∈ a :: b :: xs := by
      simp only [List.splitInTwo_fst]
      exact fun x hx => List.take_subset _ _ hx
    have hsub2 : ∀ x ∈ (List.splitInTwo ⟨a :: b :: xs, rfl⟩).2.1, x ∈ a :: b :: xs := by
      simp only [List.splitInTwo_snd]
      exact fun x hx => List.drop_subset _ _ hx
    rw [List.mergeSort, List.mergeSort]
    rw [mergeSort_congr (List.splitInTwo ⟨a :: b :: xs, rfl⟩).1.1
        (fun x y hx hy => h x y (hsub1 x hx) (hsub1 y hy)),
      mergeSort_congr (List.splitInTwo ⟨a :: b :: xs, rfl⟩).2.1
        (fun x y hx hy => h x y (hsub2 x hx) (hsub2 y hy))]
    exact merge_congr _ _ (fun x y hx hy =>
      h x y (hsub1 x (List.mem_mergeSort.mp hx)) (hsub2 y (List.mem_mergeSort.mp hy)))
termination_by l => l.length

/-- Transitivity of a key-based boolean relation. -/
theorem keyLe_trans {α : Type _} {κ : Type _} [LinearOrder κ] (k : α → κ) :
    ∀ a b c : α, decide (k a ≤ k b) = true → decide (k b ≤ k c) = true →
      decide (k a ≤ k c) = true := by
  intro a b c h1 h2
  simp only [decide_eq_true_eq] at *
  exact le_trans h1 h2

/-- Totality of a key-based boolean relation. -/
theorem keyLe_total {α : Type _} {κ : Type _} [LinearOrder κ] (k : α → κ) :
    ∀ a b : α, (decide (k a ≤ k b) || decide (k b ≤ k a)) = true := by
  intro a b
  simpa using le_total (k a) (k b)

/-- Properties of `mergeSort` under a relation that agrees, on the list being
sorted, with comparison of a key into a linear order: the result is pairwise
sorted by the key, the sort is stable, and it is idempotent. -/
theorem mergeSort_props {α : Type _} {κ : Type _} [LinearOrder κ] (k : α → κ)
    (le : α → α → Bool) (l : List α)
    (hagree : ∀ a b, a ∈ l → b ∈ l → le a b = decide (k a ≤ k b)) :
    ((l.mergeSort le).Pairwise fun a b => k a ≤ k b) ∧
    (∀ a b : α, [a, b].Sublist l → le a b = true → [a, b].Sublist (l.mergeSort le)) ∧
    ((l.mergeSort le).mergeSort le = l.mergeSort le) := by
  have hcongr : l.mergeSort le = l.mergeSort (fun a b => decide (k a ≤ k b)) :=
    mergeSort_congr l hagree
  have hsorted := @List.sorted_mergeSort _ (fun a b => decide (k a ≤ k b))
    (keyLe_trans k) (keyLe_total k) l
  refine ⟨?_, ?_, ?_⟩
  · rw [hcongr]
    exact hsorted.imp (fun h => of_decide_eq_true h)
  · intro a b hsub hle
    have ha : a ∈ l := hsub.subset (by simp)
    have hb : b ∈ l := hsub.subset (by simp)
    rw [hcongr]
    refine List.pair_sublist_mergeSort (keyLe_trans k) (keyLe_total k) ?_ hsub
    rw [← hagree a b ha hb]
    exact hle
  · have houter : (l.mergeSort le).mergeSort le
        = (l.mergeSort le).mergeSort (fun a b => decide (k a ≤ k b)) := by
      refine mergeSort_congr _ (fun a b ha hb => ?_)
      exact hagree a b (List.mem_mergeSort.mp ha) (List.mem_mergeSort.mp hb)
    rw [houter, hcongr]
    exact List.mergeSort_of_sorted hsorted

/-- The rational value of a mirror's effective rate, defined when the rate is
not NaN (missing rates default to `0`, as `Bandwidth::default()` is `0.0`). -/
def rateQ (m : Mirror) : ℚ :=
  match m.download_rate with
  | some (FVal.val q) => q
  | _ => 0

/-- No mirror of the directory stores a NaN download rate. -/
def RateNoNan (D : MirrorList) : Prop := ∀ m ∈ D.mirrors, m.rateKey.isNan = false

instance (D : MirrorList) : Decidable (RateNoNan D) := by
  unfold RateNoNan
  infer_instance

/-- A non-NaN effective rate is the rational `rateQ`. -/
theorem rateKey_val (m : Mirror) (h : m.rateKey.isNan = false) :
    m.rateKey = FVal.val (rateQ m) := by
  unfold rateQ
  cases hm : m.download_rate with
  | none => simp [Mirror.rateKey, hm]
  | some f =>
    cases f with
    | nan =>
        rw [Mirror.rateKey, hm] at h
        simp [FVal.isNan] at h
    | val q => simp [Mirror.rateKey, hm]

/-- On mirrors without NaN rates, the `Rate` comparator's `le` is comparison of
the key `-rateQ` (negated because the sort is descending). -/
theorem sortLe_rate_agree (a b : Mirror)
    (ha : a.rateKey.isNan = false) (hb : b.rateKey.isNan = false) :
    sortLe SortKey.Rate a b = decide (-(rateQ a) ≤ -(rateQ b)) := by
  have ha' := rateKey_val a ha
  have hb' := rateKey_val b hb
  simp only [sortLe, cmpRate, ha', hb', FVal.pcmp, Option.getD_some]
  rw [decide_eq_decide, ne_eq, compare_gt_iff_gt, not_lt, neg_le_neg_iff]

/-- A mirror with everything absent, at a given url. -/
def baseMirror (u : String) : Mirror :=
  { url := u, protocol := Protocol.https, score := none, delay := none,
    country := none, country_code := none, last_sync := none, isos := none,
    ipv4 := none, ipv6 := none, details := "", download_rate := none }

/-- Mirror whose probe transferred zero bytes: NaN rate. -/
def mRNan : Mirror := { baseMirror "http://m1.example/" with download_rate := some FVal.nan }

/-- Mirror with measured rate 1. -/
def mROne : Mirror := { baseMirror "http://m2.example/" with download_rate := some (FVal.val 1) }

/-- Two missing-rate mirrors used by witnesses. -/
def mWa : Mirror := baseMirror "http://w1.example/"

/-- Second witness mirror. -/
def mWb : Mirror := baseMirror "http://w2.example/"

/-- A NaN effective rate is literally `FVal.nan`. -/
theorem rateKey_nan (m : Mirror) (h : m.rateKey.isNan = true) : m.rateKey = FVal.nan := by
  cases hm : m.rateKey with
  | nan => rfl
  | val q => rw [hm] at h; simp [FVal.isNan] at h

/-- Every score key is at most `i32::MAX`. -/
theorem scoreKey_le_max (m : Mirror) : m.scoreKey ≤ i32max := by
  unfold Mirror.scoreKey
  cases m.score with
  | none => exact le_refl _
  | some q =>
      unfold satI32
      exact max_le (by unfold i32min i32max; omega) (min_le_left _ _)

/-- Every delay key is at most `i32::MAX`. -/
theorem delayKey_le_max (m : Mirror) : m.delayKey ≤ i32max := by
  unfold Mirror.delayKey
  cases m.delay with
  | none => exact le_refl _
  | some q =>
      unfold satI32
      exact max_le (by unfold i32min i32max; omega) (min_le_left _ _)

/-- C2 (amended): the `Rate` comparator resolves every NaN comparison to
`Equal` (never an error), its `le` is total; on a directory without NaN rates
the sort is descending in the effective rate (missing = `0`), preserves the
order of missing-rate mirrors, and nothing with a positive rate ever follows a
missing-rate mirror.  The frozen claim's "NaN sorts last" is refuted by
`reflecto_C2_counterexample`. -/
theorem reflecto_C2 :
    (∀ m n : Mirror, m.rateKey.isNan = true ∨ n.rateKey.isNan = true →
      cmpRate m n = Ordering.eq) ∧
    (∀ m n : Mirror, sortLe SortKey.Rate m n = true ∨ sortLe SortKey.Rate n m = true) ∧
    (∀ D : MirrorList, RateNoNan D →
      (D.sort SortKey.Rate).mirrors.Pairwise (fun a b => rateQ b ≤ rateQ a)) ∧
    (∀ (D : MirrorList) (a b : Mirror), RateNoNan D → a.download_rate = none →
      b.download_rate = none → [a, b].Sublist D.mirrors →
      [a, b].Sublist (D.sort SortKey.Rate).mirrors) ∧
    (∀ (D : MirrorList) (a b : Mirror), RateNoNan D →
      [a, b].Sublist (D.sort SortKey.Rate).mirrors → a.download_rate = none →
      rateQ b ≤ 0) := by
  have h1 : ∀ m n : Mirror, m.rateKey.isNan = true ∨ n.rateKey.isNan = true →
      cmpRate m n = Ordering.eq := by
    intro m n h
    rcases h with h | h
    · rw [cmpRate, rateKey_nan m h]
      cases n.rateKey <;> simp [FVal.pcmp]
    · rw [cmpRate, rateKey_nan n h]
      simp [FVal.pcmp]
  have hag : ∀ (D : MirrorList), RateNoNan D → ∀ a b : Mirror,
      a ∈ D.mirrors → b ∈ D.mirrors →
      sortLe SortKey.Rate a b
        = decide ((fun m => -(rateQ m)) a ≤ (fun m => -(rateQ m)) b) :=
    fun D hD a b ha hb => sortLe_rate_agree a b (hD a ha) (hD b hb)
  have h3 : ∀ D : MirrorList, RateNoNan D →
      (D.sort SortKey.Rate).mirrors.Pairwise (fun a b => rateQ b ≤ rateQ a) := by
    intro D hD
    have h := (mergeSort_props (fun m => -(rateQ m)) (sortLe SortKey.Rate) D.mirrors
      (hag D hD)).1
    exact h.imp (fun hab => by simpa using hab)
  refine ⟨h1, ?_, h3, ?_, ?_⟩
  · intro m n
    by_cases hm : m.rateKey.isNan = true
    · left
      simp [sortLe, h1 m n (Or.inl hm)]
    · by_cases hn : n.rateKey.isNan = true
      · left
        simp [sortLe, h1 m n (Or.inr hn)]
      · rw [sortLe_rate_agree m n (by simpa using hm) (by simpa using hn),
          sortLe_rate_agree n m (by simpa using hn) (by simpa using hm)]
        by_cases hle : -(rateQ m) ≤ -(rateQ n)
        · left; exact decide_eq_true hle
        · right; exact decide_eq_true (le_of_not_le hle)
  · intro D a b hD ha hb hsub
    have h := (mergeSort_props (fun m => -(rateQ m)) (sortLe SortKey.Rate) D.mirrors
      (hag D hD)).2.1
    refine h a b hsub ?_
    rw [sortLe_rate_agree a b (by simp [Mirror.rateKey, ha, FVal.isNan])
      (by simp [Mirror.rateKey, hb, FVal.isNan])]
    simp [rateQ, ha, hb]
  · intro D a b hD hsub ha
    have hpair := (h3 D hD).sublist hsub
    have := List.pairwise_pair.mp hpair
    simpa [rateQ, ha] using this

/-- C2 counterexample: a NaN-rate mirror listed before a rate-5 mirror stays
first after ranking by `Rate` — a NaN rate does not sort after defined rates. -/
theorem reflecto_C2_counterexample :
    mRNan.download_rate = some FVal.nan ∧ mROne.download_rate = some (FVal.val 1) ∧
    ((MirrorList.mk [mRNan, mROne] none).sort SortKey.Rate).mirrors = [mRNan, mROne] := by
  refine ⟨rfl, rfl, ?_⟩
  simp only [MirrorList.sort]
  rw [mergeSort_two, if_pos (by decide : sortLe SortKey.Rate mRNan mROne = true)]

/-- C2 witness: the amended C2 at concrete inputs, hypotheses discharged. -/
theorem reflecto_C2_witness :
    cmpRate mRNan mROne = Ordering.eq ∧
    ((MirrorList.mk [mROne, mWa, mWb] none).sort SortKey.Rate).mirrors.Pairwise
      (fun a b => rateQ b ≤ rateQ a) ∧
    [mWa, mWb].Sublist ((MirrorList.mk [mROne, mWa, mWb] none).sort SortKey.Rate).mirrors :=
  ⟨reflecto_C2.1 mRNan mROne (Or.inl (by decide)),
   reflecto_C2.2.2.1 (MirrorList.mk [mROne, mWa, mWb] none) (by decide),
   reflecto_C2.2.2.2.1 (MirrorList.mk [mROne, mWa, mWb] none) mWa mWb (by decide) rfl rfl
     ((List.Sublist.refl [mWa, mWb]).cons mROne)⟩

/-- Mirror with no last synchronisation (the MIRROR0 url of the tests). -/
def mANull : Mirror := baseMirror "https://mirrors.rutgers.edu/archlinux/"

/-- Mirror last synchronised 2024-05-01T14:25:08Z (epoch second 1714573508). -/
def mAMay : Mirror :=
  { baseMirror "http://ftp.ntua.gr/pub/linux/archlinux/" with last_sync := some 1714573508 }

/-- Mirror last synchronised 2024-04-01T08:22:54Z (epoch second 1711959774). -/
def mAApr : Mirror :=
  { baseMirror "https://mirror.aarnet.edu.au/pub/archlinux/" with last_sync := some 1711959774 }

/-- Mirror last synchronised one hour before the Unix epoch. -/
def mAPre : Mirror := { baseMirror "http://pre.example/" with last_sync := some (-3600) }

/-- C6 (amended): ranking by `Age` sorts ascending by the timestamp with a
missing `last_sync` defaulting to the Unix epoch — so a null endpoint sorts
before endpoints synchronised after the epoch, but not before all timestamped
endpoints (refuted by `reflecto_C6_counterexample`); the concrete
null / 2024-05 / 2024-04 scenario orders as null, 2024-04, 2024-05. -/
theorem reflecto_C6 :
    (∀ D : MirrorList,
      (D.sort SortKey.Age).mirrors.Pairwise (fun a b => a.ageKey ≤ b.ageKey)) ∧
    (∀ (D : MirrorList) (a b : Mirror), [a, b].Sublist (D.sort SortKey.Age).mirrors →
      b.last_sync = none → a.ageKey ≤ 0) ∧
    ((MirrorList.mk [mANull, mAMay, mAApr] none).sort SortKey.Age).mirrors
      = [mANull, mAApr, mAMay] := by
  have h1 : ∀ D : MirrorList,
      (D.sort SortKey.Age).mirrors.Pairwise (fun a b => a.ageKey ≤ b.ageKey) :=
    fun D => (mergeSort_props Mirror.ageKey (sortLe SortKey.Age) D.mirrors
      (fun _ _ _ _ => rfl)).1
  refine ⟨h1, ?_, ?_⟩
  · intro D a b hsub hb
    have hpair := (h1 D).sublist hsub
    have h := List.pairwise_pair.mp hpair
    simpa [Mirror.ageKey, hb] using h
  · simp only [MirrorList.sort]
    rw [mergeSort_three, mergeSort_two,
      if_pos (by decide : sortLe SortKey.Age mANull mAMay = true),
      List.cons_merge_cons,
      if_pos (by decide : sortLe SortKey.Age mANull mAApr = true),
      List.cons_merge_cons,
      if_neg (by decide : ¬ sortLe SortKey.Age mAMay mAApr = true),
      List.merge_right]

/-- C6 counterexample: an endpoint synchronised before the epoch sorts ahead
of an endpoint with no timestamp, so "no timestamp sorts first" is false. -/
theorem reflecto_C6_counterexample :
    mAPre.last_sync = some (-3600) ∧ mANull.last_sync = none ∧
    ((MirrorList.mk [mAPre, mANull] none).sort SortKey.Age).mirrors = [mAPre, mANull] := by
  refine ⟨rfl, rfl, ?_⟩
  simp only [MirrorList.sort]
  rw [mergeSort_two, if_pos (by decide : sortLe SortKey.Age mAPre mANull = true)]

/-- C6 witness: the amended C6 applied at a concrete directory. -/
theorem reflecto_C6_witness :
    mANull.last_sync = none ∧ Mirror.ageKey mAPre ≤ 0 := by
  refine ⟨rfl, ?_⟩
  refine reflecto_C6.2.1 (MirrorList.mk [mAPre, mANull] none) mAPre mANull ?_ rfl
  have h : ((MirrorList.mk [mAPre, mANull] none).sort SortKey.Age).mirrors
      = [mAPre, mANull] := reflecto_C6_counterexample.2.2
  rw [h]

/-- Mirror with missing score (and everything else absent). -/
def mSNone : Mirror := baseMirror "http://s0.example/"

/-- Mirror with a huge but defined score, rounding above `i32::MAX`. -/
def mSBig : Mirror := { baseMirror "http://s1.example/" with score := some 3000000000 }

/-- Mirror with missing delay, the MIRROR0 of the tests. -/
def mDNull : Mirror := baseMirror "https://mirrors.rutgers.edu/archlinux/d"

/-- Mirror with delay 6354. -/
def mD6354 : Mirror :=
  { baseMirror "http://ftp.ntua.gr/pub/linux/archlinux/d" with delay := some 6354 }

/-- Mirror with delay 1863. -/
def mD1863 : Mirror :=
  { baseMirror "https://mirror.aarnet.edu.au/pub/archlinux/d" with delay := some 1863 }

/-- The missing delay of `mDNull` keys as `i32::MAX`. -/
theorem delayKey_mDNull : Mirror.delayKey mDNull = i32max := rfl

/-- Delay 6354 keys as 6354. -/
theorem delayKey_mD6354 : Mirror.delayKey mD6354 = 6354 := by
  show satI32 (roundHalfAway 6354) = 6354
  unfold satI32 roundHalfAway i32max i32min
  norm_num

/-- Delay 1863 keys as 1863. -/
theorem delayKey_mD1863 : Mirror.delayKey mD1863 = 1863 := by
  show satI32 (roundHalfAway 1863) = 1863
  unfold satI32 roundHalfAway i32max i32min
  norm_num

/-- The missing score of `mSNone` keys as `i32::MAX`. -/
theorem scoreKey_mSNone : Mirror.scoreKey mSNone = i32max := rfl

/-- Score 3000000000 rounds above `i32::MAX` and saturates to it. -/
theorem scoreKey_mSBig : Mirror.scoreKey mSBig = i32max := by
  show satI32 (roundHalfAway 3000000000) = i32max
  unfold satI32 roundHalfAway i32max i32min
  norm_num

/-- C7 (amended): ranking by `Score` / `Delay` is ascending in the value
rounded half away from zero and converted to `i32` with saturation, a missing
value being `+∞` (key `i32::MAX`); anything placed after a missing-value
endpoint also has key `i32::MAX`, so missing sorts after every endpoint whose
value rounds strictly below `i32::MAX` — but only ties with values that
saturate (the unconditional "missing sorts after every defined value" is
refuted by `reflecto_C7_counterexample`).  The concrete delay scenario
`null, 6354, 1863` ranks as `1863, 6354, null`. -/
theorem reflecto_C7 :
    (∀ D : MirrorList,
      (D.sort SortKey.Score).mirrors.Pairwise (fun a b => a.scoreKey ≤ b.scoreKey)) ∧
    (∀ D : MirrorList,
      (D.sort SortKey.Delay).mirrors.Pairwise (fun a b => a.delayKey ≤ b.delayKey)) ∧
    (∀ (D : MirrorList) (a b : Mirror), [a, b].Sublist (D.sort SortKey.Score).mirrors →
      a.score = none → b.scoreKey = i32max) ∧
    (∀ (D : MirrorList) (a b : Mirror), [a, b].Sublist (D.sort SortKey.Delay).mirrors →
      a.delay = none → b.delayKey = i32max) ∧
    ((MirrorList.mk [mDNull, mD6354, mD1863] none).sort SortKey.Delay).mirrors
      = [mD1863, mD6354, mDNull] := by
  have hs : ∀ D : MirrorList,
      (D.sort SortKey.Score).mirrors.Pairwise (fun a b => a.scoreKey ≤ b.scoreKey) :=
    fun D => (mergeSort_props Mirror.scoreKey (sortLe SortKey.Score) D.mirrors
      (fun _ _ _ _ => rfl)).1
  have hd : ∀ D : MirrorList,
      (D.sort SortKey.Delay).mirrors.Pairwise (fun a b => a.delayKey ≤ b.delayKey) :=
    fun D => (mergeSort_props Mirror.delayKey (sortLe SortKey.Delay) D.mirrors
      (fun _ _ _ _ => rfl)).1
  refine ⟨hs, hd, ?_, ?_, ?_⟩
  · intro D a b hsub ha
    have h := List.pairwise_pair.mp ((hs D).sublist hsub)
    have hamax : a.scoreKey = i32max := by simp [Mirror.scoreKey, ha]
    exact le_antisymm (scoreKey_le_max b) (hamax ▸ h)
  · intro D a b hsub ha
    have h := List.pairwise_pair.mp ((hd D).sublist hsub)
    have hamax : a.delayKey = i32max := by simp [Mirror.delayKey, ha]
    exact le_antisymm (delayKey_le_max b) (hamax ▸ h)
  · have hnd1 : ¬ sortLe SortKey.Delay mDNull mD6354 = true := by
      simp only [sortLe]
      rw [delayKey_mDNull, delayKey_mD6354]
      decide
    have hnd2 : ¬ sortLe SortKey.Delay mD6354 mD1863 = true := by
      simp only [sortLe]
      rw [delayKey_mD6354, delayKey_mD1863]
      decide
    simp only [MirrorList.sort]
    rw [mergeSort_three, mergeSort_two, if_neg hnd1, List.cons_merge_cons,
      if_neg hnd2, List.merge_right]

/-- C7 counterexample: a missing score stays ahead of a defined score of
3000000000 (whose key saturates at `i32::MAX`), so a missing value does not
sort after every defined value. -/
theorem reflecto_C7_counterexample :
    mSNone.score = none ∧ mSBig.score = some 3000000000 ∧
    ((MirrorList.mk [mSNone, mSBig] none).sort SortKey.Score).mirrors
      = [mSNone, mSBig] := by
  refine ⟨rfl, rfl, ?_⟩
  have hle : sortLe SortKey.Score mSNone mSBig = true := by
    simp only [sortLe]
    rw [scoreKey_mSNone, scoreKey_mSBig]
    decide
  simp only [MirrorList.sort]
  rw [mergeSort_two, if_pos hle]

/-- C7 witness: the amended C7 applied at a concrete directory. -/
theorem reflecto_C7_witness :
    Mirror.scoreKey mWb = i32max ∧ Mirror.delayKey mWb = i32max := by
  have hsl : ((MirrorList.mk [mWa, mWb] none).sort SortKey.Score).mirrors = [mWa, mWb] := by
    simp only [MirrorList.sort]
    rw [mergeSort_two, if_pos (by decide : sortLe SortKey.Score mWa mWb = true)]
  have hdl : ((MirrorList.mk [mWa, mWb] none).sort SortKey.Delay).mirrors = [mWa, mWb] := by
    simp only [MirrorList.sort]
    rw [mergeSort_two, if_pos (by decide : sortLe SortKey.Delay mWa mWb = true)]
  constructor
  · refine reflecto_C7.2.2.1 (MirrorList.mk [mWa, mWb] none) mWa mWb ?_ rfl
    rw [hsl]
  · refine reflecto_C7.2.2.2.1 (MirrorList.mk [mWa, mWb] none) mWa mWb ?_ rfl
    rw [hdl]

/-- C8: filtering with no criteria active returns the directory unchanged,
same endpoints in the same order (and the same provenance). -/
theorem reflecto_C8 (ml : MirrorList) (now : Int) :
    ml.filter now none false false false [] = ml := rfl

/-- C9: `Bandwidth::from_duration` is the NaN sentinel exactly when the byte
count is zero, and otherwise equals `bytes / (1000 * elapsed_ms)`. -/
theorem reflecto_C9 (ms : Int) (bytes : Nat) :
    (Bandwidth.from_duration ms bytes = FVal.nan ↔ bytes = 0) ∧
    (bytes ≠ 0 →
      Bandwidth.from_duration ms bytes = FVal.val ((bytes : ℚ) / (1000 * (ms : ℚ)))) := by
  constructor
  · unfold Bandwidth.from_duration
    split
    · simp_all
    · simp_all
  · intro h
    unfold Bandwidth.from_duration
    simp [h]

/-- C9 witness: a 500-byte transfer over 2000 ms. -/
theorem reflecto_C9_witness :
    (500 : Nat) ≠ 0 ∧
    Bandwidth.from_duration 2000 500 = FVal.val ((500 : ℚ) / (1000 * (2000 : ℚ))) :=
  ⟨by decide, (reflecto_C9 2000 500).2 (by decide)⟩

/-- With only the age criterion active, `filter` is exactly the source's age
retain: keep mirrors with a `last_sync` whose duration `d = now - t` satisfies
`d.num_hours + d.num_minutes / 60 < cutoff` (total hours and total minutes). -/
theorem filter_age_only (now : Int) (c : ℚ) (ml : MirrorList) :
    (ml.filter now (some c) false false false []).mirrors
      = ml.mirrors.filter (fun m =>
          match m.last_sync with
          | some t => decide (((Int.tdiv (now - t) 3600 : Int) : ℚ)
              + ((Int.tdiv (now - t) 60 : Int) : ℚ) / 60 < c)
          | none => false) := by
  simp only [MirrorList.filter, List.isEmpty_nil, if_true, Bool.false_eq_true, if_false]
  apply List.filter_congr
  intro m _
  cases h : m.last_sync with
  | none => simp [Mirror.age, h]
  | some t => simp [Mirror.age, h]

/-- Mirror synchronised at the epoch, i.e. 90 minutes before `now = 5400`. -/
def mC4 : Mirror := { baseMirror "http://age.example/" with last_sync := some 0 }

/-- C4 counterexample: a mirror whose age is 90 minutes.  Its age in hours as
the claim words it (hours part plus minutes-within-the-hour over 60) is 1.5,
strictly below the cutoff 2, so the claim keeps it; the code computes
`num_hours + num_minutes / 60 = 1 + 90/60 = 2.5` (total minutes, not minutes
within the hour) and drops it. -/
theorem reflecto_C4_counterexample :
    specAgeInHours 5400 < 2 ∧ mC4.last_sync = some 0 ∧
    ((MirrorList.mk [mC4] none).filter 5400 (some 2) false false false []).mirrors = [] := by
  refine ⟨?_, rfl, ?_⟩
  · unfold specAgeInHours
    rw [show Int.tdiv 5400 3600 = 1 from by decide, show Int.tdiv 5400 60 = 90 from by decide]
    norm_num
  · rw [filter_age_only]
    rw [List.filter_cons]
    have hp : (match mC4.last_sync with
        | some t => decide (((Int.tdiv (5400 - t) 3600 : Int) : ℚ)
            + ((Int.tdiv (5400 - t) 60 : Int) : ℚ) / 60 < (2 : ℚ))
        | none => false) = false := by
      show decide (((Int.tdiv (5400 - 0) 3600 : Int) : ℚ)
          + ((Int.tdiv (5400 - 0) 60 : Int) : ℚ) / 60 < (2 : ℚ)) = false
      rw [show Int.tdiv (5400 - 0) 3600 = 1 from by decide,
        show Int.tdiv (5400 - 0) 60 = 90 from by decide]
      rw [decide_eq_false_iff_not]
      norm_num
    rw [hp]
    simp

/-- C4 (amended): with an age cutoff, `filter` keeps exactly the endpoints
with a defined last synchronisation whose duration `d = now - last_sync`
satisfies `d.num_hours + d.num_minutes / 60 < cutoff`, where `num_hours` and
`num_minutes` are the TOTAL whole hours and TOTAL whole minutes of `d`
(truncated toward zero) — not hours plus minutes-within-the-hour over 60 (that
reading is refuted by `reflecto_C4_counterexample`); endpoints without a last
synchronisation are dropped. -/
theorem reflecto_C4 (now : Int) (c : ℚ) (ml : MirrorList) :
    ((ml.filter now (some c) false false false []).mirrors
      = ml.mirrors.filter (fun m =>
          match m.last_sync with
          | some t => decide (((Int.tdiv (now - t) 3600 : Int) : ℚ)
              + ((Int.tdiv (now - t) 60 : Int) : ℚ) / 60 < c)
          | none => false)) ∧
    (∀ m : Mirror, m ∈ (ml.filter now (some c) false false false []).mirrors ↔
      m ∈ ml.mirrors ∧ ∃ t, m.last_sync = some t ∧
        ((Int.tdiv (now - t) 3600 : Int) : ℚ)
          + ((Int.tdiv (now - t) 60 : Int) : ℚ) / 60 < c) := by
  refine ⟨filter_age_only now c ml, ?_⟩
  intro m
  rw [filter_age_only, List.mem_filter]
  cases h : m.last_sync with
  | none => simp [h]
  | some t => simp [h]

/-- The urls of the mirrors pushed by the join loop form a sublist of the urls
of the completion sequence (each pushed mirror is an updated original, and the
update leaves the url unchanged). -/
theorem joinLoop_url_sublist :
    ∀ (left : Nat) (events : List (Mirror × Outcome)),
      ((joinLoop left events).map Mirror.url).Sublist (events.map (fun e => e.1.url))
  | _, [] => by simp [joinLoop]
  | left, (m, o) :: rest => by
    cases o with
    | fail =>
        by_cases h : left = 0
        · simp [joinLoop, h]
        · simp only [joinLoop, if_neg h, List.map_cons]
          exact (joinLoop_url_sublist left rest).cons m.url
    | success r =>
        by_cases h : wsub left = 0
        · simp only [joinLoop, h, if_pos rfl, List.map_cons, List.map_nil]
          exact (List.nil_sublist _).cons₂ m.url
        · simp only [joinLoop, if_neg h, List.map_cons]
          exact (joinLoop_url_sublist (wsub left) rest).cons₂ m.url

/-- C1: for every directory with pairwise-distinct urls, every completion
order and outcome assignment for its probe tasks, and every limit at most the
directory size, the reconciled directory has exactly as many mirrors as the
input and its urls are a permutation of (hence the same set as) the input's. -/
theorem reflecto_C1 (D : MirrorList) (events : List (Mirror × Outcome)) (limit : Nat)
    (hperm : (events.map Prod.fst).Perm D.mirrors)
    (hnodup : (D.mirrors.map Mirror.url).Nodup)
    (_hlim : limit ≤ D.mirrors.length) :
    (D.update_download_rate events limit).mirrors.length = D.mirrors.length ∧
    ((D.update_download_rate events limit).mirrors.map Mirror.url).Perm
      (D.mirrors.map Mirror.url) := by
  have hEperm : (events.map (fun e => e.1.url)).Perm (D.mirrors.map Mirror.url) := by
    have h := hperm.map Mirror.url
    rw [List.map_map] at h
    exact h
  set U := (joinLoop (min D.mirrors.length limit) events).map Mirror.url with hUdef
  have hsubU : U.Sublist (events.map (fun e => e.1.url)) := joinLoop_url_sublist _ _
  have hcountU : ∀ x : String, U.count x ≤ (D.mirrors.map Mirror.url).count x := by
    intro x
    calc U.count x ≤ (events.map (fun e => e.1.url)).count x := hsubU.count_le x
      _ = (D.mirrors.map Mirror.url).count x := hEperm.count_eq x
  have hmapurl : (D.update_download_rate events limit).mirrors.map Mirror.url
      = U ++ (D.mirrors.map Mirror.url).filter (fun u => decide (u ∉ U)) := by
    simp only [MirrorList.update_download_rate, List.map_append]
    rw [← hUdef]
    congr 1
    exact (@List.filter_map Mirror String (fun u => decide (u ∉ U)) Mirror.url D.mirrors).symm
  have hcount2 : ∀ x : String,
      (U ++ (D.mirrors.map Mirror.url).filter (fun u => decide (u ∉ U))).count x
        = (D.mirrors.map Mirror.url).count x := by
    intro x
    rw [List.count_append]
    by_cases hx : x ∈ U
    · have h0 := hcountU x
      have h1 : 0 < U.count x := List.count_pos_iff.mpr hx
      have h2 : (D.mirrors.map Mirror.url).count x ≤ 1 :=
        List.nodup_iff_count_le_one.mp hnodup x
      have h3 : ((D.mirrors.map Mirror.url).filter (fun u => decide (u ∉ U))).count x = 0 := by
        rw [List.count_eq_zero]
        intro hmem
        have hmem2 := List.of_mem_filter hmem
        simp only [decide_eq_true_eq] at hmem2
        exact hmem2 hx
      omega
    · have h3 : ((D.mirrors.map Mirror.url).filter (fun u => decide (u ∉ U))).count x
          = (D.mirrors.map Mirror.url).count x := by
        apply List.count_filter
        simp [hx]
      have h4 : U.count x = 0 := List.count_eq_zero.mpr hx
      omega
  have hfinal : ((D.update_download_rate events limit).mirrors.map Mirror.url).Perm
      (D.mirrors.map Mirror.url) := by
    rw [hmapurl]
    exact List.perm_iff_count.mpr hcount2
  refine ⟨?_, hfinal⟩
  have hlen := hfinal.length_eq
  simpa using hlen

/-- Witness mirror one for the coordinator. -/
def mUa : Mirror := baseMirror "http://u1.example/"

/-- Witness mirror two for the coordinator. -/
def mUb : Mirror := baseMirror "http://u2.example/"

/-- C1 witness: two mirrors, completions arriving in swapped order (a success
then a failure), limit 1. -/
theorem reflecto_C1_witness :
    ((MirrorList.mk [mUa, mUb] none).update_download_rate
        [(mUb, Outcome.success (FVal.val 3)), (mUa, Outcome.fail)] 1).mirrors.length
      = (MirrorList.mk [mUa, mUb] none).mirrors.length ∧
    (((MirrorList.mk [mUa, mUb] none).update_download_rate
        [(mUb, Outcome.success (FVal.val 3)), (mUa, Outcome.fail)] 1).mirrors.map
        Mirror.url).Perm ((MirrorList.mk [mUa, mUb] none).mirrors.map Mirror.url) :=
  reflecto_C1 (MirrorList.mk [mUa, mUb] none)
    [(mUb, Outcome.success (FVal.val 3)), (mUa, Outcome.fail)] 1
    (List.Perm.swap mUa mUb []) (by decide) (by decide)

/-- Mirror probed in the C3 failing scenario. -/
def mC3 : Mirror := baseMirror "http://limit0.example/"

/-- C3: with `limit = 0` and one successful probe, the coordinator does NOT
carry the endpoint over unchanged.  The `left -= 1` decrement underflows the
zero counter: in a debug build this panics, and in release mode (modelled
here) it wraps, so the join loop keeps consuming completions and stores the
successful probe's rate — the output is the updated mirror, not the original. -/
theorem reflecto_C3_bug :
    ((MirrorList.mk [mC3] none).update_download_rate
        [(mC3, Outcome.success (FVal.val 5))] 0).mirrors
      = [{ mC3 with download_rate := some (FVal.val 5) }] ∧
    ((MirrorList.mk [mC3] none).update_download_rate
        [(mC3, Outcome.success (FVal.val 5))] 0).mirrors
      ≠ (MirrorList.mk [mC3] none).mirrors := by
  constructor
  · decide
  · decide

/-- Insert-or-increment never yields the empty map. -/
theorem bumpCountry_ne_nil (l : List ((String × String) × Nat)) (k : String × String) :
    bumpCountry l k ≠ [] := by
  cases l with
  | nil => simp [bumpCountry]
  | cons x rest =>
      obtain ⟨k', n⟩ := x
      simp only [bumpCountry]
      split <;> simp

/-- The country fold is empty exactly when it started empty and no processed
mirror had both a country and a country code. -/
theorem countries_fold_eq_nil :
    ∀ (l : List Mirror) (acc : List ((String × String) × Nat)),
      (List.foldl (fun acc m =>
        match m.country, m.country_code with
        | some c, some cc => bumpCountry acc (c, cc)
        | _, _ => acc) acc l) = []
      ↔ (acc = [] ∧ ∀ m ∈ l, m.country = none ∨ m.country_code = none)
  | [], acc => by simp
  | m :: l, acc => by
    rw [List.foldl_cons]
    cases hc : m.country with
    | none =>
        simp only [hc]
        rw [countries_fold_eq_nil l acc]
        simp [hc]
    | some c =>
        cases hcc : m.country_code with
        | none =>
            simp only [hc, hcc]
            rw [countries_fold_eq_nil l acc]
            simp [hc, hcc]
        | some cc =>
            simp only [hc, hcc]
            rw [countries_fold_eq_nil l (bumpCountry acc (c, cc))]
            simp [hc, hcc, bumpCountry_ne_nil acc (c, cc)]

/-- The country map is empty exactly when no mirror has both fields. -/
theorem get_countries_eq_nil_iff (ml : MirrorList) :
    ml.get_countries = [] ↔ ∀ m ∈ ml.mirrors, m.country = none ∨ m.country_code = none := by
  unfold MirrorList.get_countries
  rw [countries_fold_eq_nil ml.mirrors []]
  simp

/-- C10: the country report panics (returns `none`) exactly on directories in
which no endpoint has both a country and a country code — including the empty
directory — and returns normally exactly when at least one such pair exists. -/
theorem reflecto_C10 (ml : MirrorList) :
    ml.print_countries = none ↔
      ∀ m ∈ ml.mirrors, m.country = none ∨ m.country_code = none := by
  rw [← get_countries_eq_nil_iff]
  cases hcs : ml.get_countries.mergeSort countryEntryLe with
  | nil =>
      have hnil : ml.get_countries = [] := by
        have hlen := congrArg List.length hcs
        rw [List.length_mergeSort] at hlen
        exact List.length_eq_zero.mp hlen
      constructor
      · intro _
        exact hnil
      · intro _
        simp [MirrorList.print_countries, hcs]
  | cons e es =>
      have hne : ml.get_countries ≠ [] := by
        intro hnil
        rw [hnil] at hcs
        simp at hcs
      constructor
      · intro hpr
        exfalso
        revert hpr
        simp [MirrorList.print_countries, hcs, List.max?_cons]
      · intro hnil
        exact absurd hnil hne
